import Mathlib

/-!
Verification of the spatial-index core of the COSS-PROJECT repository
(src/src/App.js): the Region Tree (quadtree) class `QuadTree` with its
helper `intersects`, and the operations `insert`, `subdivide`,
`queryRange` and `findCommonPoints`.

Coordinates are JavaScript numbers; they are modelled here as rationals
(ℚ). Field access on a JavaScript object that lacks the field yields
`undefined`; this matters because `intersects(point, bounds)` reads
`point.x` and `point.y`, and two call sites (App.js line 65 and line
104) pass a rectangle, which has no `x` or `y` field, as the first
argument. A missing field is modelled as `none : Option ℚ`, and the
JavaScript relational operators, which convert `undefined` to NaN and
hence return `false` on any comparison involving it, are modelled by
`jsGe` and `jsLe` below.

Mutation is modelled by explicit state passing: `insert` returns the
updated node together with its boolean result, and the in-place `.some`
loop over the children array becomes `insertChildren`, which threads the
updated children list (a child mutated by a failed attempt keeps its
mutation, exactly as in the JavaScript array). The accumulator arrays
`found` and `commonPoints` of `queryRange` and `findCommonPoints` are
passed explicitly.
-/

/-- An axis-aligned rectangle `{left, top, right, bottom}` as used by
App.js both for node bounds and for query ranges. -/
structure Bounds where
  left : ℚ
  top : ℚ
  right : ℚ
  bottom : ℚ
deriving DecidableEq, Repr

/-- A 2-D point `{x, y}`. -/
structure Point where
  x : ℚ
  y : ℚ
deriving DecidableEq, Repr

/-- JavaScript `a >= b` where either side may be `undefined` (a read of
a missing object field): `undefined` converts to NaN and every
relational comparison involving NaN is false. -/
def jsGe : Option ℚ → Option ℚ → Bool
  | some a, some b => decide (b ≤ a)
  | _, _ => false

/-- JavaScript `a <= b` where either side may be `undefined`; see `jsGe`. -/
def jsLe : Option ℚ → Option ℚ → Bool
  | some a, some b => decide (a ≤ b)
  | _, _ => false

/-- `intersects(point, bounds)` (App.js lines 4-7): reads the `x` and
`y` fields of its first argument and tests them against the four edges
of `bounds`, inclusively. `px` and `py` are the values of those two
field reads; they are `none` when the object passed as `point` has no
such fields (as happens when a rectangle is passed). -/
def intersects (px py : Option ℚ) (bounds : Bounds) : Bool :=
  jsGe px (some bounds.left) && jsLe px (some bounds.right) &&
  jsGe py (some bounds.top) && jsLe py (some bounds.bottom)

/-- `intersects(point, bounds)` at a call site whose first argument is
an actual point, with `x` and `y` fields (App.js lines 33 and 70). -/
def intersectsPoint (p : Point) (bounds : Bounds) : Bool :=
  intersects (some p.x) (some p.y) bounds

/-- `intersects(rect, bounds)` at a call site whose first argument is a
rectangle (App.js line 65, `intersects(range, this.bounds)`, and line
104, `intersects(this.bounds, otherQuadTree.bounds)`): a rectangle has
no `x` or `y` field, so both reads yield `undefined`. -/
def intersectsRect (_rect : Bounds) (bounds : Bounds) : Bool :=
  intersects none none bounds

/-- `(left + right) / 2` as computed in `subdivide` (App.js line 55). -/
def Bounds.midX (b : Bounds) : ℚ := (b.left + b.right) / 2

/-- `(top + bottom) / 2` as computed in `subdivide` (App.js line 56). -/
def Bounds.midY (b : Bounds) : ℚ := (b.top + b.bottom) / 2

/-- The bounds of the four children pushed by `subdivide` (App.js lines
58-61), in source order: top-left, top-right, bottom-left,
bottom-right. -/
def childBounds (b : Bounds) : List Bounds :=
  [⟨b.left, b.top, b.midX, b.midY⟩,
   ⟨b.midX, b.top, b.right, b.midY⟩,
   ⟨b.left, b.midY, b.midX, b.bottom⟩,
   ⟨b.midX, b.midY, b.right, b.bottom⟩]

/-- Well-formedness of a rectangle: `left ≤ right` and `top ≤ bottom`. -/
def Bounds.wf (b : Bounds) : Prop := b.left ≤ b.right ∧ b.top ≤ b.bottom

instance (b : Bounds) : Decidable b.wf := by unfold Bounds.wf; infer_instance

/-- A `QuadTree` node (App.js lines 23-30): its bounds, the `maxItems`
threshold, the remaining subdivision `depth`, the points stored directly
at this node, and the children array. -/
inductive QuadTree where
  | mk (bounds : Bounds) (maxItems : Nat) (depth : Nat)
       (points : List Point) (children : List QuadTree)
deriving Repr

/-- Field `this.bounds`. -/
def QuadTree.bounds : QuadTree → Bounds
  | .mk b _ _ _ _ => b

/-- Field `this.maxItems`. -/
def QuadTree.maxItems : QuadTree → Nat
  | .mk _ mi _ _ _ => mi

/-- Field `this.depth`. -/
def QuadTree.depth : QuadTree → Nat
  | .mk _ _ d _ _ => d

/-- Field `this.points`. -/
def QuadTree.points : QuadTree → List Point
  | .mk _ _ _ pts _ => pts

/-- Field `this.children`. -/
def QuadTree.children : QuadTree → List QuadTree
  | .mk _ _ _ _ cs => cs

/-- `new QuadTree(bounds, maxItems, depth)` (App.js lines 24-30): the
constructor stores its arguments unchanged (it performs no validation)
and starts with empty `points` and `children`. In App.js `maxItems`
defaults to 1 and `depth` to 8. -/
def QuadTree.new (bounds : Bounds) (maxItems : Nat) (depth : Nat) : QuadTree :=
  .mk bounds maxItems depth [] []

/-- `subdivide()` (App.js lines 49-62): a no-op when children already
exist or the depth budget is zero; otherwise pushes four fresh children
quartering the bounds at the axis midpoints, each with the same
`maxItems` and depth one less. -/
def subdivide : QuadTree → QuadTree
  | .mk b mi d pts cs =>
    if cs.length > 0 ∨ d = 0 then .mk b mi d pts cs
    else .mk b mi d pts ((childBounds b).map fun cb => QuadTree.new cb mi (d - 1))

mutual

/-- `insert(point)` (App.js lines 32-47) called on a freshly constructed
node `new QuadTree(b, mi, d)` (empty `points` and `children`), as
happens for every child created by `subdivide`. Returns the node after
the call together with the boolean result. At depth 0 the call returns
false and leaves the node unchanged whether or not the point is in
bounds: the store branch requires `depth > 0`, and `subdivide` refuses
to run at depth 0, so the `.some` loop runs over an empty children
array. At depth `d + 1` with `maxItems = 0` the node subdivides and
delegates to its fresh children, mirroring App.js lines 41-45. -/
def insertFresh (mi : Nat) (p : Point) : Nat → Bounds → QuadTree × Bool
  | 0, b => (QuadTree.new b mi 0, false)
  | d + 1, b =>
    if ¬ intersectsPoint p b then (QuadTree.new b mi (d + 1), false)
    else if 0 < mi then (.mk b mi (d + 1) [p] [], true)
    else
      let r := insertFreshList mi p d (childBounds b)
      (.mk b mi (d + 1) [] r.1, r.2)
termination_by d _b => (d, 0)

/-- `children.some(child => child.insert(point))` (App.js line 45) over
a children array that was just created by `subdivide`, so every child is
fresh: `bs` is the list of their bounds and `d` their common depth. The
loop short-circuits on the first success; children already tried keep
whatever mutation their failed attempt caused, and children after the
first success remain fresh. -/
def insertFreshList (mi : Nat) (p : Point) (d : Nat) : List Bounds → List QuadTree × Bool
  | [] => ([], false)
  | cb :: rest =>
    let r := insertFresh mi p d cb
    if r.2 then (r.1 :: rest.map (fun b2 => QuadTree.new b2 mi d), true)
    else
      let r2 := insertFreshList mi p d rest
      (r.1 :: r2.1, r2.2)
termination_by bs => (d, bs.length + 1)

end

mutual

/-- `insert(point)` (App.js lines 32-47). Returns the node after the
call together with the boolean result. Line 33: reject a point outside
the inclusive bounds. Line 37: store directly while under `maxItems`
with positive depth. Otherwise subdivide if childless (a no-op at depth
0, leaving the `.some` loop to run over an empty array and return
false) and delegate to the children in order. -/
def QuadTree.insert : QuadTree → Point → QuadTree × Bool
  | .mk b mi d pts cs, p =>
    if ¬ intersectsPoint p b then (.mk b mi d pts cs, false)
    else if pts.length < mi ∧ 0 < d then (.mk b mi d (pts ++ [p]) cs, true)
    else
      match cs, d with
      | [], 0 => (.mk b mi 0 pts [], false)
      | [], dd + 1 =>
        let r := insertFreshList mi p dd (childBounds b)
        (.mk b mi (dd + 1) pts r.1, r.2)
      | c :: rest, _ =>
        let r := QuadTree.insertChildren (c :: rest) p
        (.mk b mi d pts r.1, r.2)

/-- `children.some(child => child.insert(point))` (App.js line 45) over
an existing children array: try each child in order, short-circuiting on
the first success; a child mutated by a failed attempt keeps its
mutation. -/
def QuadTree.insertChildren : List QuadTree → Point → List QuadTree × Bool
  | [], _ => ([], false)
  | c :: rest, p =>
    let r := QuadTree.insert c p
    if r.2 then (r.1 :: rest, true)
    else
      let r2 := QuadTree.insertChildren rest p
      (r.1 :: r2.1, r2.2)

end

mutual

/-- `queryRange(range, found)` (App.js lines 64-80). Line 65 prunes via
`intersects(range, this.bounds)`, which reads the `x` and `y` fields of
the rectangle `range`; both are `undefined`, so the test is always
false and the function returns `found` unchanged. The remaining lines
(collect in-range points of this node, then recurse into the children,
threading the accumulator) are modelled faithfully below the guard. -/
def queryRange : QuadTree → Bounds → List Point → List Point
  | .mk b _ _ pts cs, range, found =>
    if ¬ intersectsRect range b then found
    else queryRangeList cs range (found ++ pts.filter fun pt => intersectsPoint pt range)

/-- The `for (let child of this.children) child.queryRange(range, found)`
loop (App.js lines 75-77). -/
def queryRangeList : List QuadTree → Bounds → List Point → List Point
  | [], _, found => found
  | c :: rest, range, found => queryRangeList rest range (queryRange c range found)

end

mutual

/-- `findCommonPoints(otherQuadTree, commonPoints)` (App.js lines
103-119). Line 104 prunes via `intersects(this.bounds,
otherQuadTree.bounds)`, which reads the `x` and `y` fields of the
rectangle `this.bounds`; both are `undefined`, so the test is always
false and the function returns `commonPoints` unchanged. Below the
guard: each point of this node is kept when a degenerate single-point
`queryRange` against the other tree returns a nonempty array, then the
children recurse, threading the accumulator. -/
def findCommonPoints : QuadTree → QuadTree → List Point → List Point
  | .mk b _ _ pts cs, other, common =>
    if ¬ intersectsRect b other.bounds then common
    else
      findCommonPointsList cs other
        (common ++ pts.filter fun pt =>
          (queryRange other ⟨pt.x, pt.y, pt.x, pt.y⟩ []).length > 0)

/-- The `for (let child of this.children)` loop of `findCommonPoints`
(App.js lines 114-116). -/
def findCommonPointsList : List QuadTree → QuadTree → List Point → List Point
  | [], _, common => common
  | c :: rest, other, common => findCommonPointsList rest other (findCommonPoints c other common)

end

mutual

/-- All points stored anywhere in the subtree, in node-before-children,
fixed child order. -/
def allPoints : QuadTree → List Point
  | .mk _ _ _ pts cs => pts ++ allPointsList cs

/-- All points stored in a list of subtrees, in order. -/
def allPointsList : List QuadTree → List Point
  | [] => []
  | c :: rest => allPoints c ++ allPointsList rest

end

mutual

/-- Every node of the subtree has well-formed bounds. -/
def wfTree : QuadTree → Bool
  | .mk b _ _ _ cs => decide b.wf && wfTreeList cs

/-- Every node of every subtree in the list has well-formed bounds. -/
def wfTreeList : List QuadTree → Bool
  | [] => true
  | c :: rest => wfTree c && wfTreeList rest

end

/-- The tree state after `n` repeated `insert` calls with the same point. -/
def insertN (t : QuadTree) (p : Point) : Nat → QuadTree
  | 0 => t
  | n + 1 => (QuadTree.insert (insertN t p n) p).1

/-- The quadrant of `b` containing a point that avoids both midlines:
the element of `childBounds b` whose inclusive bounds contain `p`,
unique when `p.x ≠ b.midX` and `p.y ≠ b.midY`. -/
def quadrant (p : Point) (b : Bounds) : Bounds :=
  ⟨if p.x < b.midX then b.left else b.midX,
   if p.y < b.midY then b.top else b.midY,
   if p.x < b.midX then b.midX else b.right,
   if p.y < b.midY then b.midY else b.bottom⟩

/-- `p` lies strictly inside `b`, off both subdivision midlines, and
recursively so for `d` levels down the quadrant chain: the hypothesis
of claim C10 that the point is strictly inside one quadrant at every
subdivision level and on no subdivision gridline. -/
def strictPath (p : Point) : Nat → Bounds → Prop
  | 0, _ => True
  | d + 1, b =>
    (b.left < p.x ∧ p.x < b.right ∧ b.top < p.y ∧ p.y < b.bottom) ∧
    p.x ≠ b.midX ∧ p.y ≠ b.midY ∧ strictPath p d (quadrant p b)

/-- The tree state after `k` attempted inserts of one fixed point `p`
into `QuadTree.new b 1 d`, when `p` satisfies `strictPath p d b`: a
chain of full single-point nodes down the quadrant path (with fresh
siblings), which for `k > d` ends in a subdivided depth-1 node whose
depth-0 children are all empty. -/
def chainState (p : Point) : Nat → Nat → Bounds → QuadTree
  | d, 0, b => QuadTree.new b 1 d
  | 0, _ + 1, b => QuadTree.new b 1 0
  | d + 1, 1, b => .mk b 1 (d + 1) [p] []
  | d + 1, k + 2, b =>
    .mk b 1 (d + 1) [p]
      ((childBounds b).map fun cb =>
        if cb = quadrant p b then chainState p d (k + 1) cb else QuadTree.new cb 1 d)

/-- The canvas bounds used by App.js (line 135). -/
def canvasBounds : Bounds := ⟨0, 0, 600, 400⟩

/-- A fresh per-role tree as built by App.js line 136, with the default
`maxItems = 1` and `depth = 8`. -/
def canvasTree : QuadTree := QuadTree.new canvasBounds 1 8

/-- The point (10, 10) of spec scenario 1. -/
def p1010 : Point := ⟨10, 10⟩

/-- The point (100, 100) of spec scenario 3. -/
def p100100 : Point := ⟨100, 100⟩

/-- The point (200, 200) of spec scenario 3. -/
def p200200 : Point := ⟨200, 200⟩

/-- Tree A of spec scenario 3: a canvas tree holding (100, 100). -/
def treeA : QuadTree := (QuadTree.insert canvasTree p100100).1

/-- Tree B of spec scenario 3: a canvas tree holding (100, 100) and
(200, 200). -/
def treeB : QuadTree := (QuadTree.insert (QuadTree.insert canvasTree p100100).1 p200200).1

/-- A canvas-bounds tree with `maxItems = 1` and depth budget 1, already
holding one copy of (10, 10), so that its next insert of (10, 10) must
subdivide and then fail on the depth-0 children. -/
def depth1Full : QuadTree := (QuadTree.insert (QuadTree.new canvasBounds 1 1) p1010).1

/-- Malformed bounds with `left > right`. -/
def badBounds : Bounds := ⟨10, 0, 0, 10⟩

/-- The `intersects` test applied to a rectangle as its first argument
is constantly false: the `x` and `y` field reads yield `undefined` and
every JavaScript comparison with `undefined` is false. -/
theorem intersectsRect_false (r b : Bounds) : intersectsRect r b = false := rfl

/-- Characterization of the point-in-bounds test: inclusive containment
on all four edges. -/
theorem intersectsPoint_iff (p : Point) (b : Bounds) :
    intersectsPoint p b = true ↔
      b.left ≤ p.x ∧ p.x ≤ b.right ∧ b.top ≤ p.y ∧ p.y ≤ b.bottom := by
  simp [intersectsPoint, intersects, jsGe, jsLe, and_assoc]

/-- `queryRange` returns its accumulator unchanged on every input: the
pruning test of App.js line 65 is constantly false. -/
theorem queryRange_acc (t : QuadTree) (range : Bounds) (found : List Point) :
    queryRange t range found = found := by
  cases t
  rfl

/-- `findCommonPoints` returns its accumulator unchanged on every
input: the pruning test of App.js line 104 is constantly false. -/
theorem findCommonPoints_acc (t other : QuadTree) (common : List Point) :
    findCommonPoints t other common = common := by
  cases t
  rfl

/-- A point outside the inclusive bounds of a node is rejected and the
node is unchanged (App.js lines 33-35). -/
theorem insert_out_of_bounds (t : QuadTree) (p : Point)
    (h : intersectsPoint p t.bounds = false) : QuadTree.insert t p = (t, false) := by
  cases t with
  | mk b mi d pts cs =>
    simp only [QuadTree.bounds] at h
    rw [QuadTree.insert.eq_def]
    simp [h]

/-- A childless node with depth budget 0 rejects every insert and is
left unchanged: the store branch requires `depth > 0`, `subdivide`
refuses to run at depth 0, and the `.some` loop over the empty children
array returns false. -/
theorem insert_depth_zero (b : Bounds) (mi : Nat) (pts : List Point) (p : Point) :
    QuadTree.insert (QuadTree.mk b mi 0 pts []) p = (QuadTree.mk b mi 0 pts [], false) := by
  rw [QuadTree.insert.eq_def]
  cases h : intersectsPoint p b <;> simp [h]

/-- The four quadrant bounds of the 600 by 400 canvas. -/
theorem childBounds_canvas :
    childBounds canvasBounds =
      [⟨0, 0, 300, 200⟩, ⟨300, 0, 600, 200⟩, ⟨0, 200, 300, 400⟩, ⟨300, 200, 600, 400⟩] := by
  norm_num [childBounds, canvasBounds, Bounds.midX, Bounds.midY]

/-- Evaluation of the second insert of (10, 10) into a canvas tree
already holding (10, 10): the root is full, subdivides, and the
top-left child stores the duplicate. -/
theorem insert_second_p1010 :
    QuadTree.insert (QuadTree.mk canvasBounds 1 8 [p1010] []) p1010 =
      (QuadTree.mk canvasBounds 1 8 [p1010]
        [QuadTree.mk ⟨0, 0, 300, 200⟩ 1 7 [p1010] [],
         QuadTree.new ⟨300, 0, 600, 200⟩ 1 7,
         QuadTree.new ⟨0, 200, 300, 400⟩ 1 7,
         QuadTree.new ⟨300, 200, 600, 400⟩ 1 7], true) := by
  have hg : intersectsPoint p1010 canvasBounds = true := by decide
  have htl : intersectsPoint p1010 (⟨0, 0, 300, 200⟩ : Bounds) = true := by decide
  rw [QuadTree.insert.eq_def]
  simp [hg, childBounds_canvas, insertFreshList, insertFresh, htl, QuadTree.new]

/-- Evaluation of the insert of (200, 200) into a canvas tree already
holding (100, 100): the root is full, subdivides, and the top-left
child (whose inclusive bottom edge is y = 200) stores (200, 200). -/
theorem treeB_eval :
    treeB = QuadTree.mk canvasBounds 1 8 [p100100]
      [QuadTree.mk ⟨0, 0, 300, 200⟩ 1 7 [p200200] [],
       QuadTree.new ⟨300, 0, 600, 200⟩ 1 7,
       QuadTree.new ⟨0, 200, 300, 400⟩ 1 7,
       QuadTree.new ⟨300, 200, 600, 400⟩ 1 7] := by
  have h1 : (QuadTree.insert canvasTree p100100).1 = QuadTree.mk canvasBounds 1 8 [p100100] [] := rfl
  have hg : intersectsPoint p200200 canvasBounds = true := by decide
  have htl : intersectsPoint p200200 (⟨0, 0, 300, 200⟩ : Bounds) = true := by decide
  rw [treeB, h1, QuadTree.insert.eq_def]
  simp [hg, childBounds_canvas, insertFreshList, insertFresh, htl, QuadTree.new]

/-- Evaluation of the second insert of (10, 10) into a depth-1 canvas
tree already holding (10, 10): the root is full, subdivides into four
depth-0 children, every child rejects the point, and the insert fails
while leaving the four new children behind. -/
theorem insert_into_depth1Full :
    QuadTree.insert depth1Full p1010 =
      (QuadTree.mk canvasBounds 1 1 [p1010]
        ((childBounds canvasBounds).map fun cb => QuadTree.new cb 1 0), false) := by
  have h0 : depth1Full = QuadTree.mk canvasBounds 1 1 [p1010] [] := rfl
  have hg : intersectsPoint p1010 canvasBounds = true := by decide
  rw [h0, QuadTree.insert.eq_def]
  simp [hg, childBounds, insertFreshList, insertFresh, QuadTree.new]

/-- C1: claimed, that `findCommonPoints` returns exactly the points of
the first tree whose coordinates also occur in the second tree. The
code violates this: the pruning test of App.js line 104 passes
`this.bounds`, a rectangle without `x`/`y` fields, as the point argument
of `intersects`, so the test is always false and `findCommonPoints`
always returns its accumulator (the empty array at top level), whatever
the two trees contain. Concretely (spec scenario 3): tree A holds
(100, 100), tree B holds (100, 100) and (200, 200), and the common
point (100, 100) is not reported. -/
theorem c1_findCommonPoints_returns_nothing :
    allPoints treeA = [p100100] ∧
    allPoints treeB = [p100100, p200200] ∧
    findCommonPoints treeA treeB [] = [] ∧
    (∀ (t other : QuadTree) (acc : List Point), findCommonPoints t other acc = acc) := by
  refine ⟨rfl, ?_, findCommonPoints_acc _ _ _, fun t o acc => findCommonPoints_acc t o acc⟩
  rw [treeB_eval]
  simp [allPoints, allPointsList, QuadTree.new]

/-- C2: claimed, that a point appears in `queryRange(R)` iff it was
successfully inserted and lies within R. The code violates this: the
pruning test of App.js line 65 passes `range`, a rectangle without
`x`/`y` fields, as the point argument of `intersects`, so the test is
always false and `queryRange` always returns its accumulator (the empty
array at top level). Concretely: (10, 10) is successfully inserted and
lies inside the full canvas range, yet the query reports nothing. -/
theorem c2_queryRange_returns_nothing :
    (QuadTree.insert canvasTree p1010).2 = true ∧
    intersectsPoint p1010 canvasBounds = true ∧
    queryRange (QuadTree.insert canvasTree p1010).1 canvasBounds [] = [] ∧
    (∀ (t : QuadTree) (range : Bounds) (found : List Point), queryRange t range found = found) :=
  ⟨rfl, by decide, queryRange_acc _ _ _, fun t r f => queryRange_acc t r f⟩

/-- C3 counterexample: a fresh depth-0 canvas node rejects the in-bounds
point (10, 10) — insert returns false and the node stores nothing —
contradicting the claim that a depth-0 node accepts every in-bounds
point as an overflow bucket. -/
theorem c3_counterexample :
    (QuadTree.insert (QuadTree.new canvasBounds 1 0) p1010).2 = false ∧
    intersectsPoint p1010 canvasBounds = true ∧
    allPoints (QuadTree.insert (QuadTree.new canvasBounds 1 0) p1010).1 = [] :=
  ⟨rfl, by decide, rfl⟩

/-- C3 amended: a node whose remaining subdivision depth is zero (and
which, like every depth-0 node the code ever creates, has no children)
never subdivides and rejects every insert — the call returns false and
leaves the node unchanged, no matter how many points the node already
holds and whether or not the point is within bounds. Depth exhaustion
causes rejection, not overflow storage. -/
theorem c3_amended_depth0_rejects (b : Bounds) (mi : Nat) (pts : List Point) (p : Point) :
    QuadTree.insert (QuadTree.mk b mi 0 pts []) p = (QuadTree.mk b mi 0 pts [], false) :=
  insert_depth_zero b mi pts p

/-- C5: insert of a point outside the inclusive root bounds returns
false (and leaves the tree unchanged; the model is a total function, so
no exception is possible); containment is inclusive on all four edges:
on the fresh default canvas tree, inserting (600, 400) returns true and
inserting (601, 400) returns false. -/
theorem c5_out_of_bounds_insert :
    (∀ (t : QuadTree) (p : Point),
      intersectsPoint p t.bounds = false → QuadTree.insert t p = (t, false)) ∧
    (QuadTree.insert canvasTree ⟨600, 400⟩).2 = true ∧
    (QuadTree.insert canvasTree ⟨601, 400⟩).2 = false :=
  ⟨insert_out_of_bounds, rfl, rfl⟩

/-- C5 witness: the universally quantified part of C5 applied to the
concrete out-of-bounds insert of (601, 400) into the canvas tree. -/
theorem c5_witness :
    intersectsPoint ⟨601, 400⟩ canvasTree.bounds = false ∧
    QuadTree.insert canvasTree ⟨601, 400⟩ = (canvasTree, false) :=
  ⟨by decide, c5_out_of_bounds_insert.1 canvasTree ⟨601, 400⟩ (by decide)⟩

/-- C6: claimed, that after inserting (10, 10) twice into a fresh
default canvas tree both inserts return true and a full-canvas
`queryRange` returns both copies. The inserts do both return true and
both copies are stored (the subdivision logic does not reject
duplicates), but the code violates the query half: `queryRange` returns
the empty array (see C2), not the two copies. -/
theorem c6_duplicate_insert_true_but_query_empty :
    (QuadTree.insert canvasTree p1010).2 = true ∧
    (QuadTree.insert (QuadTree.insert canvasTree p1010).1 p1010).2 = true ∧
    allPoints (QuadTree.insert (QuadTree.insert canvasTree p1010).1 p1010).1 = [p1010, p1010] ∧
    queryRange (QuadTree.insert (QuadTree.insert canvasTree p1010).1 p1010).1 canvasBounds [] = [] := by
  have h1 : (QuadTree.insert canvasTree p1010).1 = QuadTree.mk canvasBounds 1 8 [p1010] [] := rfl
  refine ⟨rfl, ?_, ?_, queryRange_acc _ _ _⟩
  · rw [h1, insert_second_p1010]
  · rw [h1, insert_second_p1010]
    simp [allPoints, allPointsList, QuadTree.new]

/-- C7 counterexample: constructing a node whose bounds have
left = 10 > 0 = right does not fail fast: the constructor performs no
validation and produces a normal node holding those bounds, on which
the operations run and return ordinary values (insert rejects the
point, queryRange returns its accumulator). -/
theorem c7_counterexample :
    QuadTree.new badBounds 1 8 = QuadTree.mk badBounds 1 8 [] [] ∧
    badBounds.right < badBounds.left ∧
    (QuadTree.insert (QuadTree.new badBounds 1 8) ⟨5, 5⟩).2 = false ∧
    queryRange (QuadTree.new badBounds 1 8) canvasBounds [] = [] :=
  ⟨rfl, by decide, rfl, queryRange_acc _ _ _⟩

/-- C7 amended: the constructor performs no validation of bounds — any
bounds, malformed ones included, are stored as given and a usable node
results; into a node with left > right or top > bottom no point can
ever be inserted, because the inclusive containment test is
unsatisfiable, so insert always returns false on it. -/
theorem c7_amended_no_validation :
    (∀ (b : Bounds) (mi d : Nat), QuadTree.new b mi d = QuadTree.mk b mi d [] []) ∧
    (∀ (b : Bounds), (b.right < b.left ∨ b.bottom < b.top) →
      ∀ (mi d : Nat) (pts : List Point) (cs : List QuadTree) (p : Point),
        (QuadTree.insert (QuadTree.mk b mi d pts cs) p).2 = false) := by
  refine ⟨fun b mi d => rfl, fun b hbad mi d pts cs p => ?_⟩
  have hfalse : intersectsPoint p b = false := by
    rw [Bool.eq_false_iff]
    intro h
    rw [intersectsPoint_iff] at h
    rcases hbad with hb | hb
    · linarith [h.1, h.2.1]
    · linarith [h.2.2.1, h.2.2.2]
  rw [insert_out_of_bounds (QuadTree.mk b mi d pts cs) p hfalse]

/-- C7 witness: the amended C7 applied to the concrete malformed bounds
with left = 10 > 0 = right. -/
theorem c7_amended_witness :
    (QuadTree.insert (QuadTree.mk badBounds 1 8 [] []) ⟨5, 5⟩).2 = false :=
  c7_amended_no_validation.2 badBounds (Or.inl (by decide)) 1 8 [] [] ⟨5, 5⟩

/-- Branch equation: a fresh node at depth 0 rejects unchanged. -/
theorem insertFresh_zero (mi : Nat) (p : Point) (b : Bounds) :
    insertFresh mi p 0 b = (QuadTree.new b mi 0, false) := by
  simp [insertFresh]

/-- Branch equation: a fresh node rejects an out-of-bounds point. -/
theorem insertFresh_out (mi : Nat) (p : Point) (d : Nat) (b : Bounds)
    (h : intersectsPoint p b = false) :
    insertFresh mi p (d + 1) b = (QuadTree.new b mi (d + 1), false) := by
  simp [insertFresh, h]

/-- Branch equation: a fresh node with positive depth and positive
capacity stores the in-bounds point directly. -/
theorem insertFresh_store (mi : Nat) (p : Point) (d : Nat) (b : Bounds)
    (h : intersectsPoint p b = true) (hmi : 0 < mi) :
    insertFresh mi p (d + 1) b = (QuadTree.mk b mi (d + 1) [p] [], true) := by
  simp [insertFresh, h, hmi]

/-- Branch equation: a fresh node with zero capacity subdivides and
delegates to its four fresh children. -/
theorem insertFresh_subdiv (p : Point) (d : Nat) (b : Bounds)
    (h : intersectsPoint p b = true) :
    insertFresh 0 p (d + 1) b =
      (QuadTree.mk b 0 (d + 1) [] (insertFreshList 0 p d (childBounds b)).1,
       (insertFreshList 0 p d (childBounds b)).2) := by
  simp [insertFresh, h]

/-- Branch equation: the fresh-children loop over no children fails. -/
theorem insertFreshList_nil (mi : Nat) (p : Point) (d : Nat) :
    insertFreshList mi p d [] = ([], false) := by
  simp [insertFreshList]

/-- Branch equation: the fresh-children loop short-circuits on a
successful head; the remaining children stay fresh. -/
theorem insertFreshList_cons_true (mi : Nat) (p : Point) (d : Nat) (cb : Bounds)
    (rest : List Bounds) (h : (insertFresh mi p d cb).2 = true) :
    insertFreshList mi p d (cb :: rest) =
      ((insertFresh mi p d cb).1 :: rest.map (fun b2 => QuadTree.new b2 mi d), true) := by
  simp [insertFreshList, h]

/-- Branch equation: the fresh-children loop keeps a failed head, with
whatever mutation its failed attempt caused, and moves on. -/
theorem insertFreshList_cons_false (mi : Nat) (p : Point) (d : Nat) (cb : Bounds)
    (rest : List Bounds) (h : (insertFresh mi p d cb).2 = false) :
    insertFreshList mi p d (cb :: rest) =
      ((insertFresh mi p d cb).1 :: (insertFreshList mi p d rest).1,
       (insertFreshList mi p d rest).2) := by
  simp [insertFreshList, h]

/-- Branch equation: a node under capacity with positive depth stores
the in-bounds point directly (App.js lines 37-39). -/
theorem insert_store (b : Bounds) (mi d : Nat) (pts : List Point) (cs : List QuadTree)
    (p : Point) (h : intersectsPoint p b = true) (hs : pts.length < mi ∧ 0 < d) :
    QuadTree.insert (QuadTree.mk b mi d pts cs) p =
      (QuadTree.mk b mi d (pts ++ [p]) cs, true) := by
  rw [QuadTree.insert.eq_def]
  simp [h, hs]

/-- Branch equation: a full childless node of positive depth subdivides
and delegates to the four fresh children (App.js lines 41-45). -/
theorem insert_subdivide_case (b : Bounds) (mi dd : Nat) (pts : List Point) (p : Point)
    (h : intersectsPoint p b = true) (hs : ¬ pts.length < mi) :
    QuadTree.insert (QuadTree.mk b mi (dd + 1) pts []) p =
      (QuadTree.mk b mi (dd + 1) pts (insertFreshList mi p dd (childBounds b)).1,
       (insertFreshList mi p dd (childBounds b)).2) := by
  rw [QuadTree.insert.eq_def]
  simp [h, hs]

/-- Branch equation: a node that may not store the point and already has
children delegates to them (App.js line 45). -/
theorem insert_delegate (b : Bounds) (mi d : Nat) (pts : List Point) (c : QuadTree)
    (rest : List QuadTree) (p : Point) (h : intersectsPoint p b = true)
    (hs : ¬ (pts.length < mi ∧ 0 < d)) :
    QuadTree.insert (QuadTree.mk b mi d pts (c :: rest)) p =
      (QuadTree.mk b mi d pts (QuadTree.insertChildren (c :: rest) p).1,
       (QuadTree.insertChildren (c :: rest) p).2) := by
  rw [QuadTree.insert.eq_def]
  simp [h, hs]

/-- Branch equation: the children loop over no children fails. -/
theorem insertChildren_nil (p : Point) : QuadTree.insertChildren [] p = ([], false) := by
  simp [QuadTree.insertChildren]

/-- Branch equation: the children loop short-circuits on a successful
head. -/
theorem insertChildren_cons_true (c : QuadTree) (rest : List QuadTree) (p : Point)
    (h : (QuadTree.insert c p).2 = true) :
    QuadTree.insertChildren (c :: rest) p = ((QuadTree.insert c p).1 :: rest, true) := by
  simp [QuadTree.insertChildren, h]

/-- Branch equation: the children loop keeps a failed head, with
whatever mutation its failed attempt caused, and moves on. -/
theorem insertChildren_cons_false (c : QuadTree) (rest : List QuadTree) (p : Point)
    (h : (QuadTree.insert c p).2 = false) :
    QuadTree.insertChildren (c :: rest) p =
      ((QuadTree.insert c p).1 :: (QuadTree.insertChildren rest p).1,
       (QuadTree.insertChildren rest p).2) := by
  simp [QuadTree.insertChildren, h]

/-- A failed insert into a fresh node stores no point anywhere in the
resulting subtree: only empty subdivision structure can have been
added. -/
theorem insertFresh_false_allPoints (mi : Nat) (p : Point) (d : Nat) (b : Bounds) :
    (insertFresh mi p d b).2 = false → allPoints (insertFresh mi p d b).1 = [] := by
  refine @insertFresh.induct mi p
    (fun d b => (insertFresh mi p d b).2 = false → allPoints (insertFresh mi p d b).1 = [])
    (fun d bs => (insertFreshList mi p d bs).2 = false →
      allPointsList (insertFreshList mi p d bs).1 = [])
    ?_ ?_ ?_ ?_ ?_ ?_ ?_ d b
  · intro b _
    rw [insertFresh_zero]
    simp [allPoints, allPointsList, QuadTree.new]
  · intro d b h _
    rw [Bool.not_eq_true] at h
    rw [insertFresh_out mi p d b h]
    simp [allPoints, allPointsList, QuadTree.new]
  · intro d b h hmi
    rw [not_not] at h
    intro hf
    rw [insertFresh_store mi p d b h hmi] at hf
    simp at hf
  · intro d b h hmi ih
    rw [not_not] at h
    have hmi0 : mi = 0 := by omega
    subst hmi0
    intro hf
    rw [insertFresh_subdiv p d b h] at hf ⊢
    simp only [] at hf
    simp [allPoints, ih hf]
  · intro d _
    rw [insertFreshList_nil]
    simp [allPointsList]
  · intro d cb rest r hr _ hf
    have hr2 : (insertFresh mi p d cb).2 = true := hr
    rw [insertFreshList_cons_true mi p d cb rest hr2] at hf
    simp at hf
  · intro d cb rest r hr ih1 ih2 hf
    have hr2 : (insertFresh mi p d cb).2 = false := by
      rw [Bool.not_eq_true] at hr
      exact hr
    rw [insertFreshList_cons_false mi p d cb rest hr2] at hf ⊢
    simp only [] at hf
    simp [allPointsList, ih1 hr2, ih2 hf]

/-- A failed insert into a list of fresh nodes with the given bounds
stores no point anywhere. -/
theorem insertFreshList_false_allPoints (mi : Nat) (p : Point) (d : Nat) :
    ∀ (bs : List Bounds), (insertFreshList mi p d bs).2 = false →
      allPointsList (insertFreshList mi p d bs).1 = [] := by
  intro bs
  induction bs with
  | nil => simp [insertFreshList, allPointsList]
  | cons cb rest ih =>
    intro hf
    cases hr : (insertFresh mi p d cb).2 with
    | true => simp only [insertFreshList, hr, if_true] at hf; simp at hf
    | false =>
      simp only [insertFreshList, hr, Bool.false_eq_true, if_false] at hf ⊢
      simp [allPointsList, insertFresh_false_allPoints mi p d cb hr, ih hf]

/-- C4 counterexample: the second insert of (10, 10) into a depth-1
canvas tree holding (10, 10) returns false, yet the rejected call is
not free of side effects: it subdivides the root, growing the children
array from 0 to 4. -/
theorem c4_counterexample :
    (QuadTree.insert depth1Full p1010).2 = false ∧
    depth1Full.children.length = 0 ∧
    (QuadTree.insert depth1Full p1010).1.children.length = 4 := by
  refine ⟨?_, rfl, ?_⟩
  · rw [insert_into_depth1Full]
  · rw [insert_into_depth1Full]
    simp [childBounds, QuadTree.children]

/-- C4 amended: a rejected insert modifies no stored-points list: the
full traversal-ordered list of stored points of the tree is unchanged.
(It is not fully atomic, though: a rejected insert may still create
empty child nodes by subdividing nodes along its descent path.) -/
theorem c4_amended_reject_preserves_points (t : QuadTree) (p : Point) :
    (QuadTree.insert t p).2 = false → allPoints (QuadTree.insert t p).1 = allPoints t := by
  refine @QuadTree.insert.induct
    (fun t p => (QuadTree.insert t p).2 = false → allPoints (QuadTree.insert t p).1 = allPoints t)
    (fun cs p => (QuadTree.insertChildren cs p).2 = false →
      allPointsList (QuadTree.insertChildren cs p).1 = allPointsList cs)
    ?_ ?_ ?_ ?_ ?_ ?_ ?_ ?_ t p
  · intro b mi d pts cs p h _
    rw [Bool.not_eq_true] at h
    rw [insert_out_of_bounds (QuadTree.mk b mi d pts cs) p h]
  · intro b mi d pts cs p h hs
    rw [not_not] at h
    intro hf
    rw [insert_store b mi d pts cs p h hs] at hf
    simp at hf
  · intro b mi pts p h _ _
    rw [insert_depth_zero]
  · intro b mi pts p h dd hs
    rw [not_not] at h
    have hs2 : ¬ pts.length < mi := fun hlt => hs ⟨hlt, Nat.succ_pos dd⟩
    intro hf
    rw [insert_subdivide_case b mi dd pts p h hs2] at hf ⊢
    simp only [] at hf
    simp [allPoints, allPointsList, insertFreshList_false_allPoints mi p dd (childBounds b) hf]
  · intro b mi d pts p h hs c rest ih
    rw [not_not] at h
    intro hf
    rw [insert_delegate b mi d pts c rest p h hs] at hf ⊢
    simp only [] at hf
    simp [allPoints, ih hf]
  · intro p _
    rw [insertChildren_nil]
  · intro c rest p r hr _ hf
    have hr2 : (QuadTree.insert c p).2 = true := hr
    rw [insertChildren_cons_true c rest p hr2] at hf
    simp at hf
  · intro c rest p r hr ih1 ih2 hf
    have hr2 : (QuadTree.insert c p).2 = false := by
      rw [Bool.not_eq_true] at hr
      exact hr
    rw [insertChildren_cons_false c rest p hr2] at hf ⊢
    simp only [] at hf
    simp [allPointsList, ih1 hr2, ih2 hf]

/-- C4 witness: the amended C4 applied to the concrete rejected insert
of the out-of-bounds point (601, 400) into the canvas tree. -/
theorem c4_amended_witness :
    allPoints (QuadTree.insert canvasTree ⟨601, 400⟩).1 = allPoints canvasTree :=
  c4_amended_reject_preserves_points canvasTree ⟨601, 400⟩ (by rfl)

/-- The axis midpoints of well-formed bounds lie between the
corresponding endpoints. -/
theorem mid_between (b : Bounds) (hwf : b.wf) :
    b.left ≤ b.midX ∧ b.midX ≤ b.right ∧ b.top ≤ b.midY ∧ b.midY ≤ b.bottom := by
  obtain ⟨h1, h2⟩ := hwf
  unfold Bounds.midX Bounds.midY
  exact ⟨by linarith, by linarith, by linarith, by linarith⟩

/-- The four quadrant bounds of well-formed bounds are well-formed. -/
theorem childBounds_wf (b : Bounds) (hwf : b.wf) : ∀ cb ∈ childBounds b, cb.wf := by
  obtain ⟨hLM, hMR, hTM, hMB⟩ := mid_between b hwf
  intro cb hmem
  simp [childBounds] at hmem
  rcases hmem with h | h | h | h <;> subst h
  · exact ⟨hLM, hTM⟩
  · exact ⟨hMR, hTM⟩
  · exact ⟨hLM, hMB⟩
  · exact ⟨hMR, hMB⟩

/-- C8: a childless node of positive depth with well-formed bounds
subdivides into exactly four children, pushed in the fixed source order
top-left, top-right, bottom-left, bottom-right, and the four children
bounds exactly tile the parent bounds: every point of the parent lies
in some child (no gaps), and any point lying in two distinct children
lies on a shared midline (no interior overlap). -/
theorem c8_subdivide_partition (b : Bounds) (mi d : Nat) (pts : List Point)
    (hd : d ≠ 0) (hwf : b.wf) :
    subdivide (QuadTree.mk b mi d pts []) =
      QuadTree.mk b mi d pts
        [QuadTree.new ⟨b.left, b.top, b.midX, b.midY⟩ mi (d - 1),
         QuadTree.new ⟨b.midX, b.top, b.right, b.midY⟩ mi (d - 1),
         QuadTree.new ⟨b.left, b.midY, b.midX, b.bottom⟩ mi (d - 1),
         QuadTree.new ⟨b.midX, b.midY, b.right, b.bottom⟩ mi (d - 1)] ∧
    (∀ p : Point, intersectsPoint p b = true ↔
      ∃ cb ∈ childBounds b, intersectsPoint p cb = true) ∧
    (∀ (p : Point) (c1 c2 : Bounds), c1 ∈ childBounds b → c2 ∈ childBounds b →
      c1 ≠ c2 → intersectsPoint p c1 = true → intersectsPoint p c2 = true →
      p.x = b.midX ∨ p.y = b.midY) := by
  obtain ⟨hLM, hMR, hTM, hMB⟩ := mid_between b hwf
  refine ⟨?_, ?_, ?_⟩
  · simp [subdivide, hd, childBounds]
  · intro p
    constructor
    · intro hp
      rw [intersectsPoint_iff] at hp
      obtain ⟨h1, h2, h3, h4⟩ := hp
      rcases le_total p.x b.midX with hx | hx <;> rcases le_total p.y b.midY with hy | hy
      · exact ⟨⟨b.left, b.top, b.midX, b.midY⟩, by simp [childBounds],
          by rw [intersectsPoint_iff]; exact ⟨h1, hx, h3, hy⟩⟩
      · exact ⟨⟨b.left, b.midY, b.midX, b.bottom⟩, by simp [childBounds],
          by rw [intersectsPoint_iff]; exact ⟨h1, hx, hy, h4⟩⟩
      · exact ⟨⟨b.midX, b.top, b.right, b.midY⟩, by simp [childBounds],
          by rw [intersectsPoint_iff]; exact ⟨hx, h2, h3, hy⟩⟩
      · exact ⟨⟨b.midX, b.midY, b.right, b.bottom⟩, by simp [childBounds],
          by rw [intersectsPoint_iff]; exact ⟨hx, h2, hy, h4⟩⟩
    · rintro ⟨cb, hmem, hcb⟩
      rw [intersectsPoint_iff] at hcb
      rw [intersectsPoint_iff]
      simp [childBounds] at hmem
      rcases hmem with h | h | h | h <;> subst h <;> simp at hcb <;>
        obtain ⟨a1, a2, a3, a4⟩ := hcb <;>
        exact ⟨by linarith, by linarith, by linarith, by linarith⟩
  · intro p c1 c2 h1 h2 hne hp1 hp2
    rw [intersectsPoint_iff] at hp1 hp2
    simp [childBounds] at h1 h2
    rcases h1 with h | h | h | h <;> rcases h2 with g | g | g | g <;> subst h <;> subst g <;>
      simp at hp1 hp2 <;>
      obtain ⟨q1, q2, q3, q4⟩ := hp1 <;> obtain ⟨r1, r2, r3, r4⟩ := hp2 <;>
      first
        | exact absurd rfl hne
        | (left; linarith)
        | (right; linarith)

/-- C8 witness: C8 applied to a childless canvas node with depth 8
(both hypotheses discharged by computation), checking the children
equation. -/
theorem c8_witness :
    Bounds.wf canvasBounds ∧
    subdivide (QuadTree.mk canvasBounds 1 8 [] []) =
      QuadTree.mk canvasBounds 1 8 []
        ((childBounds canvasBounds).map fun cb => QuadTree.new cb 1 7) := by
  refine ⟨by decide, ?_⟩
  have h := (c8_subdivide_partition canvasBounds 1 8 [] (by decide) (by decide)).1
  rw [h]
  simp [childBounds]

/-- Well-formedness of a fresh node is well-formedness of its bounds. -/
theorem wfTree_new (b : Bounds) (mi d : Nat) :
    wfTree (QuadTree.new b mi d) = decide b.wf := by
  simp [QuadTree.new, wfTree, wfTreeList]

/-- A list of fresh nodes over well-formed bounds is well-formed. -/
theorem wfTreeList_map_new (mi d : Nat) (bs : List Bounds) (h : ∀ cb ∈ bs, cb.wf) :
    wfTreeList (bs.map fun b2 => QuadTree.new b2 mi d) = true := by
  induction bs with
  | nil => simp [wfTreeList]
  | cons cb rest ih =>
    have h1 : Bounds.wf cb := h cb (by simp)
    have h2 : wfTreeList (rest.map fun b2 => QuadTree.new b2 mi d) = true :=
      ih fun x hx => h x (by simp [hx])
    simp [wfTreeList, wfTree_new, h1, h2]

/-- Inserting into a fresh node with well-formed bounds yields a tree
all of whose nodes have well-formed bounds. -/
theorem insertFresh_wf (mi : Nat) (p : Point) (d : Nat) (b : Bounds) :
    b.wf → wfTree (insertFresh mi p d b).1 = true := by
  refine @insertFresh.induct mi p
    (fun d b => b.wf → wfTree (insertFresh mi p d b).1 = true)
    (fun d bs => (∀ cb ∈ bs, cb.wf) → wfTreeList (insertFreshList mi p d bs).1 = true)
    ?_ ?_ ?_ ?_ ?_ ?_ ?_ d b
  · intro b hw
    rw [insertFresh_zero]
    simp [wfTree, wfTreeList, QuadTree.new, hw]
  · intro d b h hw
    rw [Bool.not_eq_true] at h
    rw [insertFresh_out mi p d b h]
    simp [wfTree, wfTreeList, QuadTree.new, hw]
  · intro d b h hmi hw
    rw [not_not] at h
    rw [insertFresh_store mi p d b h hmi]
    simp [wfTree, wfTreeList, hw]
  · intro d b h hmi ih hw
    rw [not_not] at h
    have hmi0 : mi = 0 := by omega
    subst hmi0
    rw [insertFresh_subdiv p d b h]
    simp [wfTree, hw, ih (childBounds_wf b hw)]
  · intro d _
    rw [insertFreshList_nil]
    simp [wfTreeList]
  · intro d cb rest r hr ih1 hall
    have hr2 : (insertFresh mi p d cb).2 = true := hr
    rw [insertFreshList_cons_true mi p d cb rest hr2]
    simp [wfTreeList, ih1 (hall cb (by simp)),
      wfTreeList_map_new mi d rest fun x hx => hall x (by simp [hx])]
  · intro d cb rest r hr ih1 ih2 hall
    have hr2 : (insertFresh mi p d cb).2 = false := by
      rw [Bool.not_eq_true] at hr
      exact hr
    rw [insertFreshList_cons_false mi p d cb rest hr2]
    simp [wfTreeList, ih1 (hall cb (by simp)),
      ih2 fun x hx => hall x (by simp [hx])]

/-- Inserting into a list of fresh nodes over well-formed bounds yields
well-formed trees. -/
theorem insertFreshList_wf (mi : Nat) (p : Point) (d : Nat) :
    ∀ (bs : List Bounds), (∀ cb ∈ bs, cb.wf) →
      wfTreeList (insertFreshList mi p d bs).1 = true := by
  intro bs
  induction bs with
  | nil =>
    intro _
    rw [insertFreshList_nil]
    simp [wfTreeList]
  | cons cb rest ih =>
    intro hall
    cases hr : (insertFresh mi p d cb).2 with
    | true =>
      rw [insertFreshList_cons_true mi p d cb rest hr]
      simp [wfTreeList, insertFresh_wf mi p d cb (hall cb (by simp)),
        wfTreeList_map_new mi d rest fun x hx => hall x (by simp [hx])]
    | false =>
      rw [insertFreshList_cons_false mi p d cb rest hr]
      simp [wfTreeList, insertFresh_wf mi p d cb (hall cb (by simp)),
        ih fun x hx => hall x (by simp [hx])]

/-- `subdivide` preserves well-formedness of every node of the tree. -/
theorem subdivide_preserves_wf (t : QuadTree) (hw : wfTree t = true) :
    wfTree (subdivide t) = true := by
  cases t with
  | mk b mi d pts cs =>
    simp only [subdivide]
    split
    · exact hw
    · simp [wfTree] at hw
      have h2 := wfTreeList_map_new mi (d - 1) (childBounds b) (childBounds_wf b hw.1)
      simp [wfTree, hw.1, h2]

/-- `insert` preserves well-formedness of every node of the tree. -/
theorem insert_preserves_wf (t : QuadTree) (p : Point) :
    wfTree t = true → wfTree (QuadTree.insert t p).1 = true := by
  refine @QuadTree.insert.induct
    (fun t p => wfTree t = true → wfTree (QuadTree.insert t p).1 = true)
    (fun cs p => wfTreeList cs = true → wfTreeList (QuadTree.insertChildren cs p).1 = true)
    ?_ ?_ ?_ ?_ ?_ ?_ ?_ ?_ t p
  · intro b mi d pts cs p h hw
    rw [Bool.not_eq_true] at h
    rw [insert_out_of_bounds (QuadTree.mk b mi d pts cs) p h]
    exact hw
  · intro b mi d pts cs p h hs hw
    rw [not_not] at h
    rw [insert_store b mi d pts cs p h hs]
    simp [wfTree] at hw ⊢
    exact hw
  · intro b mi pts p h hs hw
    rw [insert_depth_zero]
    exact hw
  · intro b mi pts p h dd hs hw
    rw [not_not] at h
    have hs2 : ¬ pts.length < mi := fun hlt => hs ⟨hlt, Nat.succ_pos dd⟩
    rw [insert_subdivide_case b mi dd pts p h hs2]
    simp [wfTree, wfTreeList] at hw ⊢
    have h2 := insertFreshList_wf mi p dd (childBounds b) (childBounds_wf b hw)
    refine ⟨hw, ?_⟩
    simpa using h2
  · intro b mi d pts p h hs c rest ih hw
    rw [not_not] at h
    rw [insert_delegate b mi d pts c rest p h hs]
    simp [wfTree] at hw ⊢
    have h2 := ih (by simpa using hw.2)
    refine ⟨hw.1, ?_⟩
    simpa using h2
  · intro p hw
    rw [insertChildren_nil]
    simp [wfTreeList]
  · intro c rest p r hr ih1 hw
    have hr2 : (QuadTree.insert c p).2 = true := hr
    rw [insertChildren_cons_true c rest p hr2]
    simp [wfTreeList] at hw ⊢
    have h2 := ih1 (by simpa using hw.1)
    refine ⟨?_, hw.2⟩
    simpa using h2
  · intro c rest p r hr ih1 ih2 hw
    have hr2 : (QuadTree.insert c p).2 = false := by
      rw [Bool.not_eq_true] at hr
      exact hr
    rw [insertChildren_cons_false c rest p hr2]
    simp [wfTreeList] at hw ⊢
    have h2 := ih1 (by simpa using hw.1)
    have h3 := ih2 (by simpa using hw.2)
    refine ⟨?_, ?_⟩
    · simpa using h2
    · simpa using h3

/-- C9: subdivision preserves well-formedness of bounds: the four
quadrant bounds of well-formed bounds are well-formed, `subdivide`
keeps every node of a well-formed tree well-formed, and `insert` (which
performs all subdivision in the running program) does too, so every
node reachable in a tree rooted at well-formed bounds and populated by
inserts has well-formed bounds. -/
theorem c9_subdivision_preserves_wf :
    (∀ b : Bounds, b.wf → ∀ cb ∈ childBounds b, cb.wf) ∧
    (∀ t : QuadTree, wfTree t = true → wfTree (subdivide t) = true) ∧
    (∀ (t : QuadTree) (p : Point), wfTree t = true → wfTree (QuadTree.insert t p).1 = true) :=
  ⟨childBounds_wf, subdivide_preserves_wf, insert_preserves_wf⟩

/-- C9 witness: C9 applied to the concrete insert of (10, 10) into the
fresh canvas tree, whose well-formedness is checked by computation. -/
theorem c9_witness : wfTree (QuadTree.insert canvasTree p1010).1 = true :=
  c9_subdivision_preserves_wf.2.2 canvasTree p1010 (by decide)

/-- A point left of a rectangle is not contained in it. -/
theorem intersectsPoint_false_of_left (p : Point) (cb : Bounds) (h : p.x < cb.left) :
    intersectsPoint p cb = false := by
  rw [Bool.eq_false_iff]
  intro hc
  rw [intersectsPoint_iff] at hc
  linarith [hc.1]

/-- A point right of a rectangle is not contained in it. -/
theorem intersectsPoint_false_of_right (p : Point) (cb : Bounds) (h : cb.right < p.x) :
    intersectsPoint p cb = false := by
  rw [Bool.eq_false_iff]
  intro hc
  rw [intersectsPoint_iff] at hc
  linarith [hc.2.1]

/-- A point above a rectangle is not contained in it. -/
theorem intersectsPoint_false_of_top (p : Point) (cb : Bounds) (h : p.y < cb.top) :
    intersectsPoint p cb = false := by
  rw [Bool.eq_false_iff]
  intro hc
  rw [intersectsPoint_iff] at hc
  linarith [hc.2.2.1]

/-- A point below a rectangle is not contained in it. -/
theorem intersectsPoint_false_of_bottom (p : Point) (cb : Bounds) (h : cb.bottom < p.y) :
    intersectsPoint p cb = false := by
  rw [Bool.eq_false_iff]
  intro hc
  rw [intersectsPoint_iff] at hc
  linarith [hc.2.2.2]

/-- The axis midpoints of a nondegenerate rectangle lie strictly
between the corresponding endpoints. -/
theorem mid_strict (b : Bounds) (h1 : b.left < b.right) (h2 : b.top < b.bottom) :
    b.left < b.midX ∧ b.midX < b.right ∧ b.top < b.midY ∧ b.midY < b.bottom := by
  unfold Bounds.midX Bounds.midY
  exact ⟨by linarith, by linarith, by linarith, by linarith⟩

/-- A fresh insert of an out-of-bounds point fails unchanged at every
depth. -/
theorem insertFresh_out_any (mi : Nat) (p : Point) (d : Nat) (cb : Bounds)
    (h : intersectsPoint p cb = false) :
    insertFresh mi p d cb = (QuadTree.new cb mi d, false) := by
  cases d with
  | zero => exact insertFresh_zero mi p cb
  | succ dd => exact insertFresh_out mi p dd cb h

/-- The fresh-children loop over bounds that all exclude the point
fails and leaves every child fresh. -/
theorem insertFreshList_all_out (mi : Nat) (p : Point) (d : Nat) (bs : List Bounds)
    (h : ∀ cb ∈ bs, intersectsPoint p cb = false) :
    insertFreshList mi p d bs = (bs.map fun b2 => QuadTree.new b2 mi d, false) := by
  induction bs with
  | nil => rw [insertFreshList_nil]; rfl
  | cons cb rest ih =>
    have hc := insertFresh_out_any mi p d cb (h cb (by simp))
    rw [insertFreshList_cons_false mi p d cb rest (by rw [hc])]
    rw [ih fun x hx => h x (by simp [hx])]
    simp [hc]

/-- Walking the fresh-children loop: the children before the quadrant
of the point reject it and stay fresh, the quadrant child receives the
insert, and the children after it stay fresh (short-circuit on success,
rejection on failure). -/
theorem insertFreshList_walk (mi : Nat) (p : Point) (d : Nat) (bs1 bs2 : List Bounds)
    (cb : Bounds) (h1 : ∀ x ∈ bs1, intersectsPoint p x = false)
    (h2 : ∀ x ∈ bs2, intersectsPoint p x = false) :
    insertFreshList mi p d (bs1 ++ cb :: bs2) =
      ((bs1.map fun b2 => QuadTree.new b2 mi d) ++ (insertFresh mi p d cb).1 ::
        (bs2.map fun b2 => QuadTree.new b2 mi d), (insertFresh mi p d cb).2) := by
  induction bs1 with
  | nil =>
    simp only [List.nil_append, List.map_nil]
    cases hr : (insertFresh mi p d cb).2 with
    | true => rw [insertFreshList_cons_true mi p d cb bs2 hr]
    | false =>
      rw [insertFreshList_cons_false mi p d cb bs2 hr]
      rw [insertFreshList_all_out mi p d bs2 h2]
  | cons c1 rest ih =>
    have hc1 := insertFresh_out_any mi p d c1 (h1 c1 (by simp))
    rw [List.cons_append]
    rw [insertFreshList_cons_false mi p d c1 (rest ++ cb :: bs2) (by rw [hc1])]
    rw [ih fun x hx => h1 x (by simp [hx])]
    simp [hc1]

/-- The children loop over nodes whose bounds all exclude the point
fails and leaves every child unchanged. -/
theorem insertChildren_all_out (p : Point) (cs : List QuadTree)
    (h : ∀ t ∈ cs, intersectsPoint p t.bounds = false) :
    QuadTree.insertChildren cs p = (cs, false) := by
  induction cs with
  | nil => rw [insertChildren_nil]
  | cons c rest ih =>
    have hc : QuadTree.insert c p = (c, false) := insert_out_of_bounds c p (h c (by simp))
    rw [insertChildren_cons_false c rest p (by rw [hc])]
    rw [ih fun t ht => h t (by simp [ht])]
    simp [hc]

/-- Walking the children loop: the children before the quadrant of the
point reject it unchanged, the quadrant child receives the insert, and
the children after it are unchanged (short-circuit on success,
rejection on failure). -/
theorem insertChildren_walk (p : Point) (cs1 cs2 : List QuadTree) (c : QuadTree)
    (h1 : ∀ t ∈ cs1, intersectsPoint p t.bounds = false)
    (h2 : ∀ t ∈ cs2, intersectsPoint p t.bounds = false) :
    QuadTree.insertChildren (cs1 ++ c :: cs2) p =
      (cs1 ++ (QuadTree.insert c p).1 :: cs2, (QuadTree.insert c p).2) := by
  induction cs1 with
  | nil =>
    simp only [List.nil_append]
    cases hr : (QuadTree.insert c p).2 with
    | true => rw [insertChildren_cons_true c cs2 p hr]
    | false =>
      rw [insertChildren_cons_false c cs2 p hr]
      rw [insertChildren_all_out p cs2 h2]
  | cons c1 rest ih =>
    have hc1 : QuadTree.insert c1 p = (c1, false) :=
      insert_out_of_bounds c1 p (h1 c1 (by simp))
    rw [List.cons_append]
    rw [insertChildren_cons_false c1 (rest ++ c :: cs2) p (by rw [hc1])]
    rw [ih fun t ht => h1 t (by simp [ht])]
    simp [hc1]

/-- Branch equation: a node that may not store the point and has a
nonempty children array delegates to it (App.js line 45). -/
theorem insert_delegate2 (b : Bounds) (mi d : Nat) (pts : List Point) (cs : List QuadTree)
    (p : Point) (h : intersectsPoint p b = true) (hs : ¬ (pts.length < mi ∧ 0 < d))
    (hcs : cs ≠ []) :
    QuadTree.insert (QuadTree.mk b mi d pts cs) p =
      (QuadTree.mk b mi d pts (QuadTree.insertChildren cs p).1,
       (QuadTree.insertChildren cs p).2) := by
  cases cs with
  | nil => exact absurd rfl hcs
  | cons c rest => exact insert_delegate b mi d pts c rest p h hs

/-- Mapping two functions that agree on the members of a list gives the
same result. -/
theorem map_congr_mem {α β : Type} (l : List α) (f g : α → β)
    (h : ∀ a ∈ l, f a = g a) : l.map f = l.map g := by
  induction l with
  | nil => rfl
  | cons a rest ih => simp [h a (by simp), ih fun x hx => h x (by simp [hx])]

/-- The children list of a chain state: mapping the quadrant test over
a split of the child bounds around the quadrant. -/
theorem chain_children_eq (p : Point) (b : Bounds) (g f : Bounds → QuadTree)
    (bs1 bs2 : List Bounds) (hsplit : childBounds b = bs1 ++ quadrant p b :: bs2)
    (hne1 : ∀ x ∈ bs1, x ≠ quadrant p b) (hne2 : ∀ x ∈ bs2, x ≠ quadrant p b) :
    ((childBounds b).map fun cb => if cb = quadrant p b then g cb else f cb) =
      bs1.map f ++ g (quadrant p b) :: bs2.map f := by
  rw [hsplit]
  rw [List.map_append, List.map_cons]
  rw [if_pos rfl]
  rw [map_congr_mem bs1 _ f fun x hx => if_neg (hne1 x hx)]
  rw [map_congr_mem bs2 _ f fun x hx => if_neg (hne2 x hx)]

/-- Two rectangles with different left edges differ. -/
theorem bounds_ne_of_left (a c : Bounds) (h : a.left ≠ c.left) : a ≠ c :=
  fun he => h (by rw [he])

/-- Two rectangles with different top edges differ. -/
theorem bounds_ne_of_top (a c : Bounds) (h : a.top ≠ c.top) : a ≠ c :=
  fun he => h (by rw [he])

/-- Splitting the child bounds around the quadrant of a point that lies
strictly inside the parent and off both midlines: the quadrant is one
of the four child bounds, the point is contained in it and in none of
the other three, and its bounds differ from the other three. -/
theorem quadrant_split (p : Point) (b : Bounds)
    (hin : b.left < p.x ∧ p.x < b.right ∧ b.top < p.y ∧ p.y < b.bottom)
    (hx : p.x ≠ b.midX) (hy : p.y ≠ b.midY) :
    ∃ bs1 bs2 : List Bounds,
      childBounds b = bs1 ++ quadrant p b :: bs2 ∧
      (∀ x ∈ bs1, intersectsPoint p x = false) ∧
      (∀ x ∈ bs2, intersectsPoint p x = false) ∧
      (∀ x ∈ bs1, x ≠ quadrant p b) ∧
      (∀ x ∈ bs2, x ≠ quadrant p b) ∧
      intersectsPoint p (quadrant p b) = true := by
  obtain ⟨i1, i2, i3, i4⟩ := hin
  obtain ⟨m1, m2, m3, m4⟩ := mid_strict b (lt_trans i1 i2) (lt_trans i3 i4)
  rcases lt_or_gt_of_ne hx with hxl | hxr <;> rcases lt_or_gt_of_ne hy with hyt | hyb
  · have hq : quadrant p b = ⟨b.left, b.top, b.midX, b.midY⟩ := by
      simp [quadrant, hxl, hyt]
    refine ⟨[], [⟨b.midX, b.top, b.right, b.midY⟩,
                 ⟨b.left, b.midY, b.midX, b.bottom⟩,
                 ⟨b.midX, b.midY, b.right, b.bottom⟩], ?_, ?_, ?_, ?_, ?_, ?_⟩
    · rw [hq]
      simp [childBounds]
    · simp
    · intro x hxm
      simp at hxm
      rcases hxm with h | h | h <;> subst h
      · exact intersectsPoint_false_of_left p _ hxl
      · exact intersectsPoint_false_of_top p _ hyt
      · exact intersectsPoint_false_of_left p _ hxl
    · simp
    · intro x hxm
      rw [hq]
      simp at hxm
      rcases hxm with h | h | h <;> subst h
      · exact bounds_ne_of_left _ _ (ne_of_gt m1)
      · exact bounds_ne_of_top _ _ (ne_of_gt m3)
      · exact bounds_ne_of_left _ _ (ne_of_gt m1)
    · rw [hq, intersectsPoint_iff]
      exact ⟨le_of_lt i1, le_of_lt hxl, le_of_lt i3, le_of_lt hyt⟩
  · have hny : ¬ p.y < b.midY := not_lt.mpr (le_of_lt hyb)
    have hq : quadrant p b = ⟨b.left, b.midY, b.midX, b.bottom⟩ := by
      simp [quadrant, hxl, hny]
    refine ⟨[⟨b.left, b.top, b.midX, b.midY⟩,
             ⟨b.midX, b.top, b.right, b.midY⟩],
            [⟨b.midX, b.midY, b.right, b.bottom⟩], ?_, ?_, ?_, ?_, ?_, ?_⟩
    · rw [hq]
      simp [childBounds]
    · intro x hxm
      simp at hxm
      rcases hxm with h | h <;> subst h
      · exact intersectsPoint_false_of_bottom p _ hyb
      · exact intersectsPoint_false_of_bottom p _ hyb
    · intro x hxm
      simp at hxm
      subst hxm
      exact intersectsPoint_false_of_left p _ hxl
    · intro x hxm
      rw [hq]
      simp at hxm
      rcases hxm with h | h <;> subst h
      · exact bounds_ne_of_top _ _ (ne_of_lt m3)
      · exact bounds_ne_of_left _ _ (ne_of_gt m1)
    · intro x hxm
      rw [hq]
      simp at hxm
      subst hxm
      exact bounds_ne_of_left _ _ (ne_of_gt m1)
    · rw [hq, intersectsPoint_iff]
      exact ⟨le_of_lt i1, le_of_lt hxl, le_of_lt hyb, le_of_lt i4⟩
  · have hnx : ¬ p.x < b.midX := not_lt.mpr (le_of_lt hxr)
    have hq : quadrant p b = ⟨b.midX, b.top, b.right, b.midY⟩ := by
      simp [quadrant, hnx, hyt]
    refine ⟨[⟨b.left, b.top, b.midX, b.midY⟩],
            [⟨b.left, b.midY, b.midX, b.bottom⟩,
             ⟨b.midX, b.midY, b.right, b.bottom⟩], ?_, ?_, ?_, ?_, ?_, ?_⟩
    · rw [hq]
      simp [childBounds]
    · intro x hxm
      simp at hxm
      subst hxm
      exact intersectsPoint_false_of_right p _ hxr
    · intro x hxm
      simp at hxm
      rcases hxm with h | h <;> subst h
      · exact intersectsPoint_false_of_top p _ hyt
      · exact intersectsPoint_false_of_top p _ hyt
    · intro x hxm
      rw [hq]
      simp at hxm
      subst hxm
      exact bounds_ne_of_left _ _ (ne_of_lt m1)
    · intro x hxm
      rw [hq]
      simp at hxm
      rcases hxm with h | h <;> subst h
      · exact bounds_ne_of_left _ _ (ne_of_lt m1)
      · exact bounds_ne_of_top _ _ (ne_of_gt m3)
    · rw [hq, intersectsPoint_iff]
      exact ⟨le_of_lt hxr, le_of_lt i2, le_of_lt i3, le_of_lt hyt⟩
  · have hnx : ¬ p.x < b.midX := not_lt.mpr (le_of_lt hxr)
    have hny : ¬ p.y < b.midY := not_lt.mpr (le_of_lt hyb)
    have hq : quadrant p b = ⟨b.midX, b.midY, b.right, b.bottom⟩ := by
      simp [quadrant, hnx, hny]
    refine ⟨[⟨b.left, b.top, b.midX, b.midY⟩,
             ⟨b.midX, b.top, b.right, b.midY⟩,
             ⟨b.left, b.midY, b.midX, b.bottom⟩], [], ?_, ?_, ?_, ?_, ?_, ?_⟩
    · rw [hq]
      simp [childBounds]
    · intro x hxm
      simp at hxm
      rcases hxm with h | h | h <;> subst h
      · exact intersectsPoint_false_of_right p _ hxr
      · exact intersectsPoint_false_of_bottom p _ hyb
      · exact intersectsPoint_false_of_right p _ hxr
    · simp
    · intro x hxm
      rw [hq]
      simp at hxm
      rcases hxm with h | h | h <;> subst h
      · exact bounds_ne_of_left _ _ (ne_of_lt m1)
      · exact bounds_ne_of_top _ _ (ne_of_lt m3)
      · exact bounds_ne_of_left _ _ (ne_of_lt m1)
    · simp
    · rw [hq, intersectsPoint_iff]
      exact ⟨le_of_lt hxr, le_of_lt i2, le_of_lt hyb, le_of_lt i4⟩

/-- One insert step on the chain state: inserting the fixed point into
the state after `k` attempted inserts yields the state after `k + 1`
attempts, and the attempt succeeds exactly when `k < d`. -/
theorem chain_step (p : Point) :
    ∀ (d k : Nat) (b : Bounds), strictPath p d b →
      QuadTree.insert (chainState p d k b) p = (chainState p d (k + 1) b, decide (k < d)) := by
  intro d
  induction d with
  | zero =>
    intro k b _
    have h0 : chainState p 0 k b = QuadTree.mk b 1 0 [] [] := by
      cases k with
      | zero => rfl
      | succ kk => rfl
    have h1 : chainState p 0 (k + 1) b = QuadTree.mk b 1 0 [] [] := rfl
    rw [h0, h1, insert_depth_zero]
    simp
  | succ dd ih =>
    intro k b hs
    obtain ⟨hin, hx, hy, hrest⟩ := hs
    have hqb : intersectsPoint p b = true := by
      rw [intersectsPoint_iff]
      exact ⟨le_of_lt hin.1, le_of_lt hin.2.1, le_of_lt hin.2.2.1, le_of_lt hin.2.2.2⟩
    obtain ⟨bs1, bs2, hsplit, hout1, hout2, hne1, hne2, hqin⟩ := quadrant_split p b hin hx hy
    have hm1 : ∀ t ∈ bs1.map (fun b2 => QuadTree.new b2 1 dd),
        intersectsPoint p t.bounds = false := by
      intro t ht
      obtain ⟨x, hxm, rfl⟩ := List.mem_map.mp ht
      exact hout1 x hxm
    have hm2 : ∀ t ∈ bs2.map (fun b2 => QuadTree.new b2 1 dd),
        intersectsPoint p t.bounds = false := by
      intro t ht
      obtain ⟨x, hxm, rfl⟩ := List.mem_map.mp ht
      exact hout2 x hxm
    have hfresh1 : insertFresh 1 p dd (quadrant p b) =
        (chainState p dd 1 (quadrant p b), decide (0 < dd)) := by
      cases dd with
      | zero =>
        rw [insertFresh_zero]
        simp [chainState]
      | succ ee =>
        rw [insertFresh_store 1 p ee (quadrant p b) hqin (by omega)]
        simp [chainState]
    cases k with
    | zero =>
      have h0 : chainState p (dd + 1) 0 b = QuadTree.mk b 1 (dd + 1) [] [] := rfl
      rw [h0, insert_store b 1 (dd + 1) [] [] p hqb ⟨by simp, Nat.succ_pos dd⟩]
      simp [chainState]
    | succ kk =>
      cases kk with
      | zero =>
        have h1 : chainState p (dd + 1) 1 b = QuadTree.mk b 1 (dd + 1) [p] [] := rfl
        rw [h1, insert_subdivide_case b 1 dd [p] p hqb (by simp)]
        rw [hsplit, insertFreshList_walk 1 p dd bs1 bs2 (quadrant p b) hout1 hout2]
        rw [hfresh1]
        have h2 : chainState p (dd + 1) (1 + 1) b = QuadTree.mk b 1 (dd + 1) [p]
            ((childBounds b).map fun cb =>
              if cb = quadrant p b then chainState p dd 1 cb else QuadTree.new cb 1 dd) := by
          simp [chainState]
        have hch := chain_children_eq p b (fun cb => chainState p dd 1 cb)
          (fun b2 => QuadTree.new b2 1 dd) bs1 bs2 hsplit hne1 hne2
        rw [h2, hch]
        simp only [Prod.mk.injEq]
        exact ⟨trivial, (decide_eq_decide.mpr (by omega)).symm⟩
      | succ kk2 =>
        have h2 : chainState p (dd + 1) (kk2 + 1 + 1) b = QuadTree.mk b 1 (dd + 1) [p]
            ((childBounds b).map fun cb =>
              if cb = quadrant p b then chainState p dd (kk2 + 1) cb
              else QuadTree.new cb 1 dd) := by
          simp [chainState]
        have hch := chain_children_eq p b (fun cb => chainState p dd (kk2 + 1) cb)
          (fun b2 => QuadTree.new b2 1 dd) bs1 bs2 hsplit hne1 hne2
        have hch2 := chain_children_eq p b (fun cb => chainState p dd (kk2 + 2) cb)
          (fun b2 => QuadTree.new b2 1 dd) bs1 bs2 hsplit hne1 hne2
        rw [h2, hch]
        rw [insert_delegate2 b 1 (dd + 1) [p] _ p hqb (by simp) (by simp)]
        rw [insertChildren_walk p _ _ (chainState p dd (kk2 + 1) (quadrant p b)) hm1 hm2]
        rw [ih (kk2 + 1) (quadrant p b) hrest]
        have h3 : chainState p (dd + 1) (kk2 + 1 + 1 + 1) b = QuadTree.mk b 1 (dd + 1) [p]
            ((childBounds b).map fun cb =>
              if cb = quadrant p b then chainState p dd (kk2 + 2) cb
              else QuadTree.new cb 1 dd) := by
          simp [chainState]
        rw [h3, hch2]
        simp only [Prod.mk.injEq]
        exact ⟨trivial, (decide_eq_decide.mpr (by omega)).symm⟩

/-- C10: on a fresh tree with `maxItems = 1` and depth budget `d ≥ 1`,
repeatedly inserting one fixed in-bounds point that lies strictly
inside one quadrant at every subdivision level (on no subdivision
gridline, as captured by `strictPath`), the first `d` inserts return
true and the `(d + 1)`-th insert returns false, even though the point
lies within the root bounds: capacity along its quadrant path is
exhausted. -/
theorem c10_repeated_insert (b : Bounds) (p : Point) (d : Nat)
    (hd : 1 ≤ d) (hs : strictPath p d b) :
    (∀ k, k < d → (QuadTree.insert (insertN (QuadTree.new b 1 d) p k) p).2 = true) ∧
    (QuadTree.insert (insertN (QuadTree.new b 1 d) p d) p).2 = false := by
  have hstate : ∀ k, insertN (QuadTree.new b 1 d) p k = chainState p d k b := by
    intro k
    induction k with
    | zero =>
      cases d with
      | zero => rfl
      | succ dd => rfl
    | succ kk ihk =>
      simp only [insertN, ihk]
      rw [chain_step p d kk b hs]
  constructor
  · intro k hk
    rw [hstate k, chain_step p d k b hs]
    simp [hk]
  · rw [hstate d, chain_step p d d b hs]
    simp

/-- C10 witness: C10 applied to the canvas tree with depth budget 1 and
the point (10, 10), which lies strictly inside the top-left quadrant
and on no gridline; the second insert of (10, 10) fails. -/
theorem c10_witness :
    (QuadTree.insert (insertN (QuadTree.new canvasBounds 1 1) p1010 1) p1010).2 = false :=
  (c10_repeated_insert canvasBounds p1010 1 (by decide)
    (by norm_num [strictPath, canvasBounds, p1010, Bounds.midX, Bounds.midY])).2

/-- Coherence of the model: `insertFresh` is `insert` on a freshly
constructed node. -/
theorem insertFresh_eq_insert (mi : Nat) (p : Point) (d : Nat) (b : Bounds) :
    insertFresh mi p d b = QuadTree.insert (QuadTree.new b mi d) p := by
  refine @insertFresh.induct mi p
    (fun d b => insertFresh mi p d b = QuadTree.insert (QuadTree.new b mi d) p)
    (fun d bs => insertFreshList mi p d bs =
      QuadTree.insertChildren (bs.map fun b2 => QuadTree.new b2 mi d) p)
    ?_ ?_ ?_ ?_ ?_ ?_ ?_ d b
  · intro b
    rw [insertFresh_zero, show QuadTree.new b mi 0 = QuadTree.mk b mi 0 [] [] from rfl,
      insert_depth_zero]
  · intro d b h
    rw [Bool.not_eq_true] at h
    rw [insertFresh_out mi p d b h, insert_out_of_bounds (QuadTree.new b mi (d + 1)) p h]
  · intro d b h hmi
    rw [not_not] at h
    rw [insertFresh_store mi p d b h hmi,
      show QuadTree.new b mi (d + 1) = QuadTree.mk b mi (d + 1) [] [] from rfl,
      insert_store b mi (d + 1) [] [] p h ⟨by simpa using hmi, Nat.succ_pos d⟩]
    simp
  · intro d b h hmi ih
    rw [not_not] at h
    have hmi0 : mi = 0 := by omega
    subst hmi0
    rw [insertFresh_subdiv p d b h,
      show QuadTree.new b 0 (d + 1) = QuadTree.mk b 0 (d + 1) [] [] from rfl,
      insert_subdivide_case b 0 d [] p h (by simp)]
  · intro d
    rw [insertFreshList_nil, List.map_nil, insertChildren_nil]
  · intro d cb rest r hr ih1
    have hr2 : (insertFresh mi p d cb).2 = true := hr
    rw [insertFreshList_cons_true mi p d cb rest hr2, List.map_cons,
      insertChildren_cons_true (QuadTree.new cb mi d)
        (rest.map fun b2 => QuadTree.new b2 mi d) p (by rw [← ih1]; exact hr2),
      ← ih1]
  · intro d cb rest r hr ih1 ih2
    have hr2 : (insertFresh mi p d cb).2 = false := by
      rw [Bool.not_eq_true] at hr
      exact hr
    rw [insertFreshList_cons_false mi p d cb rest hr2, List.map_cons,
      insertChildren_cons_false (QuadTree.new cb mi d)
        (rest.map fun b2 => QuadTree.new b2 mi d) p (by rw [← ih1]; exact hr2),
      ← ih1, ← ih2]

/-- Coherence of the model: the fresh-children loop is the children
loop over freshly constructed nodes. -/
theorem insertFreshList_eq_insertChildren (mi : Nat) (p : Point) (d : Nat) (bs : List Bounds) :
    insertFreshList mi p d bs =
      QuadTree.insertChildren (bs.map fun b2 => QuadTree.new b2 mi d) p := by
  induction bs with
  | nil => rw [insertFreshList_nil, List.map_nil, insertChildren_nil]
  | cons cb rest ih =>
    cases hr : (insertFresh mi p d cb).2 with
    | true =>
      rw [insertFreshList_cons_true mi p d cb rest hr, List.map_cons,
        insertChildren_cons_true _ _ p (by rw [← insertFresh_eq_insert]; exact hr),
        ← insertFresh_eq_insert]
    | false =>
      rw [insertFreshList_cons_false mi p d cb rest hr, List.map_cons,
        insertChildren_cons_false _ _ p (by rw [← insertFresh_eq_insert]; exact hr),
        ← insertFresh_eq_insert, ih]

/-- Coherence of the model with the source control flow of App.js lines
40-46: a full childless node of positive depth first subdivides and
then delegates the insert to the children of the subdivided node. -/
theorem insert_via_subdivide (b : Bounds) (mi dd : Nat) (pts : List Point) (p : Point)
    (h : intersectsPoint p b = true) (hs : ¬ pts.length < mi) :
    QuadTree.insert (QuadTree.mk b mi (dd + 1) pts []) p =
      (QuadTree.mk b mi (dd + 1) pts
        (QuadTree.insertChildren (subdivide (QuadTree.mk b mi (dd + 1) pts [])).children p).1,
       (QuadTree.insertChildren (subdivide (QuadTree.mk b mi (dd + 1) pts [])).children p).2) := by
  have hsub : (subdivide (QuadTree.mk b mi (dd + 1) pts [])).children =
      (childBounds b).map fun cb => QuadTree.new cb mi dd := by
    simp [subdivide, QuadTree.children]
  rw [insert_subdivide_case b mi dd pts p h hs, hsub, ← insertFreshList_eq_insertChildren]
